import Mathlib

/-!
Verification of the circlink link-management core.

The command-line layer is translated from `circlink/cli.py`.  The backend
manager, the persistent store, the ledger and the link descriptor live in
`circlink.backend` / `circlink.link`; those modules are modelled from the
specification (each such definition carries a doc comment saying so).

Machine conventions:
* a destination path is a list of components, so the ancestor/descendant
  relation of the ledger is the list-prefix relation;
* the persistent store is the list of descriptors plus the durable next-id
  counter mandated by the spec;
* CLI commands are functions from a state and the raw string argument to a
  `CliOut` recording the new state, the printed messages and how the
  process ended (`ok` = fall through, `exited n` = `raise Exit(n)`,
  `crash` = an uncaught Python exception).
-/

/-- Modelled from the spec (§3, Link Descriptor): the serializable record of
one link's configuration and status.  `write_path` is kept as a component
list so that the ancestor/descendant relation is list prefixing; the
manifest maps copied file paths to modification markers. -/
structure CircuitPythonLink where
  link_id : Nat
  name : String
  read_path : String
  write_path : List String
  recursive : Bool
  active : Bool
  process_id : Nat
  creation_cwd : String
  wipe_dest : Bool
  skip_presave : Bool
  manifest : List (String × Nat)
deriving DecidableEq

/-- Modelled from the spec (§4.5, `start` request): the configuration part of
a start request, after the CLI has resolved the working directory. -/
structure LinkConfig where
  read_path : String
  write_path : List String
  cwd : String
  name : String
  recursive : Bool
  wipe_dest : Bool
  skip_presave : Bool
deriving DecidableEq

/-- Modelled from the spec (§4.3, ledger conflict check): two destination
claims collide when they are equal or one contains the other, i.e. when one
component list is a prefix of the other. -/
def overlaps (p q : List String) : Bool :=
  p.isPrefixOf q || q.isPrefixOf p

/-- Modelled from the spec (§4.2, Persistent Store): the descriptors
currently on disk together with the durable next-id counter ("one plus the
highest id ever issued, tracked independently of which descriptors
currently exist"). -/
structure BackendState where
  links : List CircuitPythonLink
  next_id : Nat
deriving DecidableEq

/-- The store of a fresh installation: no descriptors, counter at 1. -/
def initState : BackendState := { links := [], next_id := 1 }

/-- Ids of the stored descriptors, in storage order. -/
def idsOf (s : BackendState) : List Nat :=
  s.links.map (fun l => l.link_id)

/-- Store well-formedness: ids are positive, below the counter, and unique. -/
def wf (s : BackendState) : Prop :=
  1 ≤ s.next_id ∧ (∀ i ∈ idsOf s, 1 ≤ i ∧ i < s.next_id) ∧ (idsOf s).Nodup

/-- Modelled from the spec (§7): the distinguishable outcome kinds of the
public operations. -/
inductive Err where
  | validation
  | conflict
  | notFound
  | processError
  | storeError
deriving DecidableEq

/-- The descriptor a successful start writes: active, bound to its fresh id.
Process identity is abstract (the spec only requires it to reference the
live watcher), so the model reuses the id as the process marker. -/
def mkLink (i : Nat) (cfg : LinkConfig) : CircuitPythonLink :=
  { link_id := i
    name := cfg.name
    read_path := cfg.read_path
    write_path := cfg.write_path
    recursive := cfg.recursive
    active := true
    process_id := i
    creation_cwd := cfg.cwd
    wipe_dest := cfg.wipe_dest
    skip_presave := cfg.skip_presave
    manifest := [] }

/-- Modelled from the spec (§4.5 `start`, §4.3 conflict check): reject with a
conflict if any active descriptor's claim equals, contains or is contained
by the requested destination; otherwise create the descriptor under the
next id and advance the counter. -/
def start_backend (s : BackendState) (cfg : LinkConfig) :
    Except Err (Nat × BackendState) :=
  if s.links.any (fun l => l.active && overlaps l.write_path cfg.write_path) then
    .error .conflict
  else
    .ok (s.next_id,
      { links := s.links ++ [mkLink s.next_id cfg], next_id := s.next_id + 1 })

/-- Find the stored descriptor with the given id (CLI ids arrive as Python
ints, hence `Int`). -/
def findLink (s : BackendState) (i : Int) : Option CircuitPythonLink :=
  s.links.find? (fun l => ((l.link_id : Int) == i))

/-- Set `active := false` on the descriptor with the given id. -/
def setInactive (links : List CircuitPythonLink) (i : Int) :
    List CircuitPythonLink :=
  links.map (fun l =>
    if ((l.link_id : Int) == i) then { l with active := false } else l)

/-- Modelled from the spec (§4.5 `stop`, P4): request termination of the
bound watcher.  On an already-inactive descriptor, `hard_fault = true`
reports a process fault while `hard_fault = false` succeeds as a no-op; an
absent id is a fault only under `hard_fault = true`. -/
def stop_backend (s : BackendState) (i : Int) (hard_fault : Bool) :
    Except Err BackendState :=
  match findLink s i with
  | none => if hard_fault then .error .notFound else .ok s
  | some l =>
    if l.active then .ok { s with links := setInactive s.links i }
    else if hard_fault then .error .processError else .ok s

/-- Modelled from the spec (§4.5 `clear`, P3, §4.2 `delete`): remove the
descriptor; refuse with a conflict unless `force` if it is currently
active; deleting an absent id is a no-op except under `hard_fault = true`. -/
def clear_backend (s : BackendState) (i : Int) (force : Bool)
    (hard_fault : Bool) : Except Err BackendState :=
  match findLink s i with
  | none => if hard_fault then .error .notFound else .ok s
  | some l =>
    if l.active && !force then .error .conflict
    else .ok { s with links := s.links.filter (fun a => !((a.link_id : Int) == i)) }

/-- Modelled from the spec (§4.5): the monotonic counter, exposed so callers
can resolve "the most recently created link". -/
def get_next_link_id (s : BackendState) : Nat := s.next_id

/-- The patterns the CLI builds for the store: `"*"` or the literal file
name `"link" ++ str ++ ".json"`, represented by the raw string `str`. -/
inductive Pattern where
  | all
  | exactStr (str : String)
deriving DecidableEq

/-- A stored descriptor (whose file is named from the decimal print of its
id) matches an exact pattern string when the strings coincide. -/
def patMatches (pat : Pattern) (l : CircuitPythonLink) : Bool :=
  match pat with
  | .all => true
  | .exactStr str => str == Nat.repr l.link_id

/-- Modelled from the spec (§4.2 `list`): `*` matches all descriptors, an
exact id matches one or none; absence is an empty result, not an error. -/
def get_links_list (s : BackendState) (pat : Pattern) :
    List CircuitPythonLink :=
  s.links.filter (patMatches pat)

/-- How a CLI invocation ended: fell through normally, raised
`typer.Exit(code)`, or escaped with an uncaught Python exception. -/
inductive CliResult where
  | ok
  | exited (code : Nat)
  | crash (msg : String)
deriving DecidableEq

/-- Result of one CLI invocation: the store afterwards, the printed
messages in order, and how the process ended. -/
structure CliOut where
  state : BackendState
  msgs : List String
  result : CliResult
deriving DecidableEq

/-- Modelled from the spec (§7): the message the backend surfaces for each
outcome kind when an operation fails. -/
def errMsg (e : Err) : String :=
  match e with
  | .validation => "Validation error"
  | .conflict => "Link is currently active"
  | .notFound => "Link not found"
  | .processError => "Process for link not found"
  | .storeError => "Storage error"

/-- Numeric value of a decimal digit character. -/
def digitVal (c : Char) : Nat := c.toNat - 48

/-- Value of a nonempty all-digit character list, else `none`. -/
def digitsToNat (cs : List Char) : Option Nat :=
  if !cs.isEmpty && cs.all Char.isDigit then
    some (cs.foldl (fun a c => 10 * a + digitVal c) 0)
  else none

/-- Model of Python `int(str)` as the CLI uses it on id arguments: an
optional sign followed by decimal digits (the whitespace and underscore
forms Python also tolerates never arise from the CLI paths studied here). -/
def parseId (str : String) : Option Int :=
  match str.data with
  | '-' :: rest => (digitsToNat rest).map (fun n => -(n : Int))
  | '+' :: rest => (digitsToNat rest).map (fun n => (n : Int))
  | cs => (digitsToNat cs).map (fun n => (n : Int))

/-- One iteration of the `stop "all"` loop of `cli.stop`: stop the entry
with `hard_fault=False`, then clear it (also `hard_fault=False`) when
`--clear` was given.  Backend results are dropped, so the sweep continues
regardless of the outcome. -/
def stopAllStep (s : BackendState) (clear_flag : Bool)
    (l : CircuitPythonLink) : BackendState :=
  let s1 := match stop_backend s (l.link_id : Int) false with
    | .ok s2 => s2
    | .error _ => s
  if clear_flag then
    match clear_backend s1 (l.link_id : Int) false false with
    | .ok s2 => s2
    | .error _ => s1
  else s1

/-- Tail of `cli.stop` once an integer id is in hand: a single-target stop
(`hard_fault=True`), then a single-target clear when `--clear` was given.
A backend failure surfaces immediately as `Exit(1)`. -/
def stopTail (s : BackendState) (i : Int) (clear_flag : Bool) : CliOut :=
  match stop_backend s i true with
  | .error e => ⟨s, [errMsg e], .exited 1⟩
  | .ok s1 =>
    if clear_flag then
      match clear_backend s1 i false true with
      | .error e => ⟨s1, [errMsg e], .exited 1⟩
      | .ok s2 => ⟨s2, [], .ok⟩
    else ⟨s1, [], .ok⟩

/-- `cli.stop`, translated from `cli.py`.  For `"last"` the code computes
`str(get_next_link_id() - 1)` and later reparses it with `int`; since
`int(str(n)) = n`, the composition is embedded as the number itself. -/
def stopCli (s : BackendState) (link_id : String) (clear_flag : Bool) :
    CliOut :=
  if link_id == "all" then
    let entries := get_links_list s .all
    ⟨entries.foldl (fun st l => stopAllStep st clear_flag l) s, [], .exited 0⟩
  else if link_id == "last" then
    let n := get_next_link_id s - 1
    if n == 0 then ⟨s, ["There are no links in the history"], .exited 1⟩
    else stopTail s (n : Int) clear_flag
  else
    match parseId link_id with
    | none => ⟨s, ["Link ID must be the ID, \"last\", or \"all\""], .exited 1⟩
    | some i => stopTail s i clear_flag

/-- One iteration of the `clear "all"` loop of `cli.clear`: clear the entry
with the requested `force` and `hard_fault=False`; a failure only
contributes its message and the sweep continues. -/
def clearAllStep (s : BackendState) (force : Bool)
    (l : CircuitPythonLink) : BackendState × List String :=
  match clear_backend s (l.link_id : Int) force false with
  | .ok s1 => (s1, [])
  | .error e => (s, [errMsg e])

/-- Tail of `cli.clear` once an integer id is in hand: a single-target
clear whose failure surfaces immediately as `Exit(1)`. -/
def clearTail (s : BackendState) (i : Int) (force : Bool) : CliOut :=
  match clear_backend s i force true with
  | .error e => ⟨s, [errMsg e], .exited 1⟩
  | .ok s1 => ⟨s1, [], .ok⟩

/-- `cli.clear`, translated from `cli.py`.  Note the `"last"` branch: when
the computed id is 0 the function plainly `return`s, with no message. -/
def clearCli (s : BackendState) (link_id : String) (force : Bool) : CliOut :=
  if link_id == "all" then
    let res := (get_links_list s .all).foldl
      (fun acc l =>
        let r := clearAllStep acc.1 force l
        (r.1, acc.2 ++ r.2))
      (s, ([] : List String))
    ⟨res.1, res.2, .exited 0⟩
  else if link_id == "last" then
    let n := get_next_link_id s - 1
    if n == 0 then ⟨s, [], .ok⟩
    else clearTail s (n : Int) force
  else
    match parseId link_id with
    | none => ⟨s, ["Link ID must be the ID, \"last\", or \"all\""], .exited 1⟩
    | some i => clearTail s i force

/-- Stand-in for the tabulate call of `cli.view`: table formatting is
outside the core (spec §1), so the rendered table is abstracted to a
deterministic marker naming the listed ids. -/
def renderTable (abs_paths : Bool) (rows : List CircuitPythonLink) : String :=
  (if abs_paths then "table-abs:" else "table:")
    ++ String.intercalate "," (rows.map (fun l => Nat.repr l.link_id))

/-- Body of `cli.view` after the pattern is resolved: list the matching
links; on an empty result report "no links" (plain `Exit`, code 0) when the
request was `"all"` or `"last"`, and an unknown-id failure otherwise. -/
def viewWith (s : BackendState) (pat : Pattern) (fromAllOrLast : Bool)
    (abs_paths : Bool) : CliOut :=
  let link_infos := get_links_list s pat
  if link_infos.isEmpty then
    if fromAllOrLast then ⟨s, ["No links in the history to view"], .exited 0⟩
    else ⟨s, ["This link ID is not in the history"], .exited 1⟩
  else ⟨s, [renderTable abs_paths link_infos], .ok⟩

/-- `cli.view`, translated from `cli.py`.  For an argument that is neither
an integer nor `"last"`/`"all"` the code prints its complaint but does not
raise `Exit`, so control reaches `get_links_list(pattern)` with the local
`pattern` never assigned: the invocation dies with `UnboundLocalError`. -/
def viewCli (s : BackendState) (link_id : String) (abs_paths : Bool) :
    CliOut :=
  if link_id == "all" then viewWith s .all true abs_paths
  else if link_id == "last" then
    let n := get_next_link_id s - 1
    viewWith s (if n == 0 then .all else .exactStr (Nat.repr n)) true abs_paths
  else
    match parseId link_id with
    | some _ => viewWith s (.exactStr link_id) false abs_paths
    | none => ⟨s, ["Please use a valid link ID, \"last\", or \"all\" (default)"],
        .crash "UnboundLocalError: pattern"⟩

/-- The configuration `cli.restart` re-submits for a link: same read path,
write path, working directory, name and recursiveness; the one-shot launch
flags are not part of the listed row and default to false. -/
def cfgOf (l : CircuitPythonLink) : LinkConfig :=
  { read_path := l.read_path
    write_path := l.write_path
    cwd := l.creation_cwd
    name := l.name
    recursive := l.recursive
    wipe_dest := false
    skip_presave := false }

/-- Loop body of `cli.restart` for one listed link: an active link is only
reported, never touched; an inactive one is re-submitted via the backend
and its old id is then cleared through the `clear` command.  The third
component records whether an `Exit` escaped (aborting the loop). -/
def restartLink (s : BackendState) (l : CircuitPythonLink) :
    BackendState × List String × Bool :=
  if l.active then
    (s, ["Link #" ++ Nat.repr l.link_id ++ " is active, not restarting this link."],
      false)
  else
    match start_backend s (cfgOf l) with
    | .error e => (s, [errMsg e], true)
    | .ok r =>
      match clear_backend r.2 (l.link_id : Int) false true with
      | .error e => (r.2, [errMsg e], true)
      | .ok s2 => (s2, [], false)

/-- The `cli.restart` loop over the listed links, stopping at the first
escaped `Exit`. -/
def restartFold (s : BackendState) :
    List CircuitPythonLink → BackendState × List String × Bool
  | [] => (s, [], false)
  | l :: rest =>
    let r := restartLink s l
    if r.2.2 then r
    else
      let r2 := restartFold r.1 rest
      (r2.1, r.2.1 ++ r2.2.1, r2.2.2)

/-- Body of `cli.restart` after the pattern is resolved: fail when nothing
matches, otherwise run the restart loop. -/
def restartWith (s : BackendState) (pat : Pattern) : CliOut :=
  let link_list := get_links_list s pat
  if link_list.isEmpty then
    ⟨s, ["There are no links in the history to restart"], .exited 1⟩
  else
    let r := restartFold s link_list
    ⟨r.1, r.2.1, if r.2.2 then .exited 1 else .ok⟩

/-- `cli.restart`, translated from `cli.py`. -/
def restartCli (s : BackendState) (link_id : String) : CliOut :=
  if link_id == "all" then restartWith s .all
  else if link_id == "last" then
    let n := get_next_link_id s - 1
    restartWith s (if n == 0 then .all else .exactStr (Nat.repr n))
  else
    match parseId link_id with
    | some _ => restartWith s (.exactStr link_id)
    | none => ⟨s, ["Please use a valid link ID, \"last\", or \"all\""], .exited 1⟩

/-- `cli.start`, translated from `cli.py`: a thin wrapper over the backend
start. -/
def startCli (s : BackendState) (cfg : LinkConfig) : CliOut :=
  match start_backend s cfg with
  | .ok r => ⟨r.2, [], .ok⟩
  | .error e => ⟨s, [errMsg e], .exited 1⟩

/-- Modelled from the spec (§4.1, §6): the value kinds appearing in a
persisted descriptor document. -/
inductive JVal where
  | jstr (v : String)
  | jnat (v : Nat)
  | jbool (v : Bool)
  | jpath (v : List String)
  | jmap (v : List (String × Nat))
deriving DecidableEq

/-- Modelled from the spec (§4.1, §6): serialize a descriptor to its
structured document, one field per key. -/
def toJson (l : CircuitPythonLink) : List (String × JVal) :=
  [("link_id", .jnat l.link_id),
   ("name", .jstr l.name),
   ("read_path", .jstr l.read_path),
   ("write_path", .jpath l.write_path),
   ("recursive", .jbool l.recursive),
   ("active", .jbool l.active),
   ("process_id", .jnat l.process_id),
   ("creation_cwd", .jstr l.creation_cwd),
   ("wipe_dest", .jbool l.wipe_dest),
   ("skip_presave", .jbool l.skip_presave),
   ("manifest", .jmap l.manifest)]

/-- First value stored under a key in a descriptor document. -/
def jLookup (j : List (String × JVal)) (k : String) : Option JVal :=
  (j.find? (fun p => p.fst == k)).map (fun p => p.snd)

/-- Read a string field. -/
def jStr (j : List (String × JVal)) (k : String) : Option String :=
  match jLookup j k with
  | some (.jstr v) => some v
  | _ => none

/-- Read a numeric field. -/
def jNat (j : List (String × JVal)) (k : String) : Option Nat :=
  match jLookup j k with
  | some (.jnat v) => some v
  | _ => none

/-- Read a boolean field. -/
def jBool (j : List (String × JVal)) (k : String) : Option Bool :=
  match jLookup j k with
  | some (.jbool v) => some v
  | _ => none

/-- Read a path field. -/
def jPath (j : List (String × JVal)) (k : String) : Option (List String) :=
  match jLookup j k with
  | some (.jpath v) => some v
  | _ => none

/-- Read a manifest field. -/
def jMap (j : List (String × JVal)) (k : String) : Option (List (String × Nat)) :=
  match jLookup j k with
  | some (.jmap v) => some v
  | _ => none

/-- Modelled from the spec (§4.1, §6): parse a descriptor document by
looking up each known field; keys the reader does not know are simply
never consulted, so unknown fields cannot break it. -/
def fromJson (j : List (String × JVal)) : Option CircuitPythonLink := do
  let link_id ← jNat j "link_id"
  let name ← jStr j "name"
  let read_path ← jStr j "read_path"
  let write_path ← jPath j "write_path"
  let recursive ← jBool j "recursive"
  let active ← jBool j "active"
  let process_id ← jNat j "process_id"
  let creation_cwd ← jStr j "creation_cwd"
  let wipe_dest ← jBool j "wipe_dest"
  let skip_presave ← jBool j "skip_presave"
  let manifest ← jMap j "manifest"
  pure { link_id, name, read_path, write_path, recursive, active,
         process_id, creation_cwd, wipe_dest, skip_presave, manifest }

/-- Modelled from the spec (§4.4, Watcher mutation of its own descriptor):
a watcher tick persists a new manifest and may turn its link inactive
(clean stop or hard fault); it never activates a link and never touches
the destination claim. -/
def watcher_update (s : BackendState) (i : Int)
    (m : List (String × Nat)) (stillActive : Bool) : BackendState :=
  { s with links := s.links.map (fun l =>
      if ((l.link_id : Int) == i) then
        { l with manifest := m, active := l.active && stillActive }
      else l) }

/-- The operations that create, mutate or delete descriptors: manager
start/stop/clear and the watcher's own status writes. -/
inductive Op where
  | startOp (cfg : LinkConfig)
  | stopOp (i : Int) (hard_fault : Bool)
  | clearOp (i : Int) (force : Bool) (hard_fault : Bool)
  | watcherOp (i : Int) (m : List (String × Nat)) (stillActive : Bool)

/-- Apply one operation; a failed operation leaves the store as it is.
The second component is the id issued, when the operation was a
successful start. -/
def applyOp (s : BackendState) (op : Op) : BackendState × Option Nat :=
  match op with
  | .startOp cfg =>
    match start_backend s cfg with
    | .ok r => (r.2, some r.1)
    | .error _ => (s, none)
  | .stopOp i hf =>
    match stop_backend s i hf with
    | .ok s1 => (s1, none)
    | .error _ => (s, none)
  | .clearOp i f hf =>
    match clear_backend s i f hf with
    | .ok s1 => (s1, none)
    | .error _ => (s, none)
  | .watcherOp i m a => (watcher_update s i m a, none)

/-- Run a sequence of operations, collecting every id issued. -/
def run (s : BackendState) : List Op → BackendState × List Nat
  | [] => (s, [])
  | op :: ops =>
    let r := applyOp s op
    let r2 := run r.1 ops
    (r2.1, r.2.toList ++ r2.2)

/-- The destination-claim invariant (spec P2): no two simultaneously active
descriptors have equal or nested write paths. -/
def noOverlap (s : BackendState) : Prop :=
  ∀ a ∈ s.links, ∀ b ∈ s.links, a.active = true → b.active = true →
    a.link_id ≠ b.link_id → overlaps a.write_path b.write_path = false

/-- Concrete configuration used by the example states: scenario A of the
spec, a link from `./src` into `/target/code`. -/
def cfgA : LinkConfig :=
  { read_path := "./src"
    write_path := ["target", "code"]
    cwd := "/home/u"
    name := ""
    recursive := false
    wipe_dest := false
    skip_presave := false }

/-- A second configuration with a disjoint destination. -/
def cfgB : LinkConfig :=
  { cfgA with write_path := ["target", "other"] }

/-- Example store: link #1 (into `/target/code`) and link #2 (into
`/target/other`), both active, counter at 3. -/
def stateAB : BackendState :=
  { links := [mkLink 1 cfgA, mkLink 2 cfgB], next_id := 3 }

/-- Example store: link #1 inactive, link #2 active, counter at 3. -/
def stateMixed : BackendState :=
  { links := [{ mkLink 1 cfgA with active := false }, mkLink 2 cfgB],
    next_id := 3 }

/-- Mark a descriptor inactive, all other fields unchanged. -/
def deactivate (d : CircuitPythonLink) : CircuitPythonLink :=
  { d with active := false }

/-- Decimal value of a digit-character list, most significant digit first. -/
def decDigitsVal (cs : List Char) : Nat :=
  cs.foldl (fun a c => 10 * a + digitVal c) 0

lemma digitVal_digitChar (n : Nat) (h : n < 10) :
    digitVal (Nat.digitChar n) = n := by
  interval_cases n <;> decide

lemma toDigitsCore_append (n : Nat) : ∀ fuel ds, n < fuel →
    Nat.toDigitsCore 10 fuel n ds = Nat.toDigits 10 n ++ ds := by
  induction n using Nat.strong_induction_on with
  | _ n ih =>
    intro fuel ds hfuel
    match fuel with
    | f + 1 =>
      by_cases h0 : n / 10 = 0
      · show Nat.toDigitsCore 10 (f + 1) n ds = _
        unfold Nat.toDigits
        simp [Nat.toDigitsCore, h0]
      · have h10 : 10 ≤ n := by
          by_contra hcon
          push_neg at hcon
          exact h0 (Nat.div_eq_of_lt hcon)
        have hdiv : n / 10 < n := Nat.div_lt_self (by omega) (by omega)
        have hstep : Nat.toDigitsCore 10 (f + 1) n ds
            = Nat.toDigitsCore 10 f (n / 10) (Nat.digitChar (n % 10) :: ds) := by
          simp [Nat.toDigitsCore, h0]
        have hstep2 : Nat.toDigits 10 n
            = Nat.toDigitsCore 10 n (n / 10) [Nat.digitChar (n % 10)] := by
          unfold Nat.toDigits
          simp [Nat.toDigitsCore, h0]
        rw [hstep, ih (n / 10) hdiv f _ (by omega), hstep2,
          ih (n / 10) hdiv n _ hdiv]
        simp

lemma decDigitsVal_snoc (xs : List Char) (c : Char) :
    decDigitsVal (xs ++ [c]) = 10 * decDigitsVal xs + digitVal c := by
  simp [decDigitsVal, List.foldl_append]

lemma decDigitsVal_toDigits (n : Nat) :
    decDigitsVal (Nat.toDigits 10 n) = n := by
  induction n using Nat.strong_induction_on with
  | _ n ih =>
    by_cases h0 : n / 10 = 0
    · have hn : n < 10 := by
        by_contra hcon
        push_neg at hcon
        have h1 : 1 ≤ n / 10 := (Nat.one_le_div_iff (by omega)).mpr hcon
        omega
      have hd : Nat.toDigits 10 n = [Nat.digitChar (n % 10)] := by
        unfold Nat.toDigits
        simp [Nat.toDigitsCore, h0]
      rw [hd]
      have : n % 10 = n := Nat.mod_eq_of_lt hn
      simp [decDigitsVal, digitVal_digitChar, this, hn]
    · have h10 : 10 ≤ n := by
        by_contra hcon
        push_neg at hcon
        exact h0 (Nat.div_eq_of_lt hcon)
      have hdiv : n / 10 < n := Nat.div_lt_self (by omega) (by omega)
      have hd : Nat.toDigits 10 n
          = Nat.toDigits 10 (n / 10) ++ [Nat.digitChar (n % 10)] := by
        conv_lhs => unfold Nat.toDigits
        rw [show ∀ m, Nat.toDigitsCore 10 (n + 1) n m
            = Nat.toDigitsCore 10 n (n / 10) (Nat.digitChar (n % 10) :: m)
          from fun m => by simp [Nat.toDigitsCore, h0]]
        exact toDigitsCore_append (n / 10) n _ hdiv
      rw [hd, decDigitsVal_snoc, ih (n / 10) hdiv,
        digitVal_digitChar (n % 10) (Nat.mod_lt n (by omega))]
      omega

lemma repr_nat_inj (m n : Nat) (h : Nat.repr m = Nat.repr n) : m = n := by
  have hd : Nat.toDigits 10 m = Nat.toDigits 10 n := congrArg String.data h
  have h2 := congrArg decDigitsVal hd
  rwa [decDigitsVal_toDigits, decDigitsVal_toDigits] at h2

lemma patMatches_exact_repr (n : Nat) (l : CircuitPythonLink) :
    patMatches (.exactStr (Nat.repr n)) l = (l.link_id == n) := by
  simp only [patMatches]
  by_cases h : l.link_id = n
  · subst h
    simp
  · have hne : Nat.repr n ≠ Nat.repr l.link_id :=
      fun hc => h ((repr_nat_inj _ _ hc).symm)
    simp [h, hne]

lemma overlaps_comm (p q : List String) : overlaps p q = overlaps q p := by
  simp [overlaps, Bool.or_comm]


lemma map_proj_shrink (links : List CircuitPythonLink)
    (g : CircuitPythonLink → CircuitPythonLink)
    (hid : ∀ a, (g a).link_id = a.link_id)
    (hw : ∀ a, (g a).write_path = a.write_path)
    (ha : ∀ a, (g a).active = true → a.active = true) :
    (links.map g).map (fun l => l.link_id) = links.map (fun l => l.link_id) ∧
    ∀ b ∈ links.map g, ∃ a ∈ links, b.link_id = a.link_id ∧
      b.write_path = a.write_path ∧ (b.active = true → a.active = true) := by
  constructor
  · simp only [List.map_map]
    congr 1
    funext a
    simp [Function.comp, hid a]
  · intro b hb
    rcases List.mem_map.mp hb with ⟨a, hmem, rfl⟩
    exact ⟨a, hmem, hid a, hw a, ha a⟩

lemma setInactive_proj (links : List CircuitPythonLink) (i : Int) :
    (setInactive links i).map (fun l => l.link_id)
        = links.map (fun l => l.link_id) ∧
    ∀ b ∈ setInactive links i, ∃ a ∈ links, b.link_id = a.link_id ∧
      b.write_path = a.write_path ∧ (b.active = true → a.active = true) := by
  apply map_proj_shrink
  · intro a
    by_cases h : ((a.link_id : Int) == i) <;> simp [h]
  · intro a
    by_cases h : ((a.link_id : Int) == i) <;> simp [h]
  · intro a
    by_cases h : ((a.link_id : Int) == i) <;> simp [h]

lemma stop_backend_ok (s : BackendState) (i : Int) (hf : Bool)
    (s' : BackendState) (h : stop_backend s i hf = .ok s') :
    s'.next_id = s.next_id ∧ idsOf s' = idsOf s ∧
    ∀ b ∈ s'.links, ∃ a ∈ s.links, b.link_id = a.link_id ∧
      b.write_path = a.write_path ∧ (b.active = true → a.active = true) := by
  cases hfind : findLink s i with
  | none =>
    simp only [stop_backend, hfind] at h
    cases hf with
    | false =>
      simp only [Bool.false_eq_true, if_false, Except.ok.injEq] at h
      subst h
      exact ⟨rfl, rfl, fun b hb => ⟨b, hb, rfl, rfl, fun x => x⟩⟩
    | true => simp at h
  | some l =>
    simp only [stop_backend, hfind] at h
    by_cases ha : l.active
    · rw [if_pos ha] at h
      simp only [Except.ok.injEq] at h
      subst h
      exact ⟨rfl, (setInactive_proj s.links i).1, (setInactive_proj s.links i).2⟩
    · rw [if_neg ha] at h
      cases hf with
      | false =>
        simp only [Bool.false_eq_true, if_false, Except.ok.injEq] at h
        subst h
        exact ⟨rfl, rfl, fun b hb => ⟨b, hb, rfl, rfl, fun x => x⟩⟩
      | true => simp at h

lemma clear_backend_ok (s : BackendState) (i : Int) (f hf : Bool)
    (s' : BackendState) (h : clear_backend s i f hf = .ok s') :
    s'.next_id = s.next_id ∧ s'.links.Sublist s.links := by
  cases hfind : findLink s i with
  | none =>
    simp only [clear_backend, hfind] at h
    cases hf with
    | false =>
      simp only [Bool.false_eq_true, if_false, Except.ok.injEq] at h
      subst h
      exact ⟨rfl, List.Sublist.refl _⟩
    | true => simp at h
  | some l =>
    simp only [clear_backend, hfind] at h
    by_cases hc : l.active && !f
    · rw [if_pos hc] at h
      simp at h
    · rw [if_neg hc] at h
      simp only [Except.ok.injEq] at h
      subst h
      exact ⟨rfl, List.filter_sublist _⟩

lemma start_backend_ok (s : BackendState) (cfg : LinkConfig)
    (r : Nat × BackendState) (h : start_backend s cfg = .ok r) :
    r.1 = s.next_id ∧
    r.2.links = s.links ++ [mkLink s.next_id cfg] ∧
    r.2.next_id = s.next_id + 1 ∧
    ∀ l ∈ s.links, l.active = true →
      overlaps l.write_path cfg.write_path = false := by
  by_cases hany :
      s.links.any (fun l => l.active && overlaps l.write_path cfg.write_path)
  · simp only [start_backend, if_pos hany] at h
    simp at h
  · simp only [start_backend, if_neg hany] at h
    simp only [Except.ok.injEq] at h
    subst h
    refine ⟨rfl, rfl, rfl, ?_⟩
    intro l hl hact
    have := (List.any_eq_false.mp (Bool.of_not_eq_true hany)) l hl
    simpa [hact] using this

lemma wf_of_ids_eq (s s' : BackendState) (h : wf s)
    (hids : idsOf s' = idsOf s) (hnext : s'.next_id = s.next_id) : wf s' := by
  obtain ⟨h1, h2, h3⟩ := h
  exact ⟨hnext ▸ h1, fun i hi => hnext ▸ h2 i (hids ▸ hi), hids ▸ h3⟩

lemma wf_of_sublist (s s' : BackendState) (h : wf s)
    (hsub : s'.links.Sublist s.links) (hnext : s'.next_id = s.next_id) :
    wf s' := by
  obtain ⟨h1, h2, h3⟩ := h
  have hs : (idsOf s').Sublist (idsOf s) := hsub.map _
  exact ⟨hnext ▸ h1, fun i hi => hnext ▸ h2 i (hs.subset hi), h3.sublist hs⟩

lemma noOverlap_of_proj (s s' : BackendState)
    (hproj : ∀ b ∈ s'.links, ∃ a ∈ s.links, b.link_id = a.link_id ∧
      b.write_path = a.write_path ∧ (b.active = true → a.active = true))
    (hno : noOverlap s) : noOverlap s' := by
  intro b1 hb1 b2 hb2 hact1 hact2 hne
  rcases hproj b1 hb1 with ⟨a1, ha1, hid1, hw1, hA1⟩
  rcases hproj b2 hb2 with ⟨a2, ha2, hid2, hw2, hA2⟩
  rw [hw1, hw2]
  exact hno a1 ha1 a2 ha2 (hA1 hact1) (hA2 hact2) (by omega)

lemma wf_start (s : BackendState) (cfg : LinkConfig) (r : Nat × BackendState)
    (hwf : wf s) (h : start_backend s cfg = .ok r) : wf r.2 := by
  obtain ⟨h1, h2, h3⟩ := hwf
  obtain ⟨-, hlinks, hnext, -⟩ := start_backend_ok s cfg r h
  have hids : idsOf r.2 = idsOf s ++ [s.next_id] := by
    simp [idsOf, hlinks, mkLink]
  refine ⟨by omega, ?_, ?_⟩
  · intro i hi
    rw [hids] at hi
    rcases List.mem_append.mp hi with hi | hi
    · rcases h2 i hi with ⟨ha, hb⟩
      omega
    · simp at hi
      omega
  · rw [hids]
    refine List.Nodup.append h3 (List.nodup_singleton _) ?_
    intro i hi hj
    simp at hj
    rcases h2 i hi with ⟨-, hb⟩
    omega

lemma noOverlap_start (s : BackendState) (cfg : LinkConfig)
    (r : Nat × BackendState) (_hwf : wf s) (hno : noOverlap s)
    (h : start_backend s cfg = .ok r) : noOverlap r.2 := by
  obtain ⟨-, hlinks, -, hclean⟩ := start_backend_ok s cfg r h
  intro b1 hb1 b2 hb2 hact1 hact2 hne
  rw [hlinks] at hb1 hb2
  rcases List.mem_append.mp hb1 with hb1 | hb1 <;>
    rcases List.mem_append.mp hb2 with hb2 | hb2
  · exact hno b1 hb1 b2 hb2 hact1 hact2 hne
  · simp at hb2
    subst hb2
    simpa [mkLink] using hclean b1 hb1 hact1
  · simp at hb1
    subst hb1
    rw [overlaps_comm]
    simpa [mkLink] using hclean b2 hb2 hact2
  · simp at hb1 hb2
    subst hb1
    subst hb2
    simp at hne

lemma watcher_update_inv (s : BackendState) (i : Int)
    (m : List (String × Nat)) (a : Bool) (hwf : wf s) (hno : noOverlap s) :
    wf (watcher_update s i m a) ∧ noOverlap (watcher_update s i m a) := by
  have hproj := map_proj_shrink s.links
    (fun l => if ((l.link_id : Int) == i) then
        { l with manifest := m, active := l.active && a } else l)
    (by intro l; by_cases h : ((l.link_id : Int) == i) <;> simp [h])
    (by intro l; by_cases h : ((l.link_id : Int) == i) <;> simp [h])
    (by
      intro l
      by_cases h : ((l.link_id : Int) == i) <;> simp [h]
      intro hx _
      exact hx)
  constructor
  · exact wf_of_ids_eq s _ hwf hproj.1 rfl
  · exact noOverlap_of_proj s _ hproj.2 hno

lemma applyOp_inv (s : BackendState) (op : Op)
    (hwf : wf s) (hno : noOverlap s) :
    wf (applyOp s op).1 ∧ noOverlap (applyOp s op).1 := by
  cases op with
  | startOp cfg =>
    simp only [applyOp]
    cases hr : start_backend s cfg with
    | ok r => exact ⟨wf_start s cfg r hwf hr, noOverlap_start s cfg r hwf hno hr⟩
    | error e => exact ⟨hwf, hno⟩
  | stopOp i hf =>
    simp only [applyOp]
    cases hr : stop_backend s i hf with
    | ok s1 =>
      obtain ⟨hnext, hids, hproj⟩ := stop_backend_ok s i hf s1 hr
      exact ⟨wf_of_ids_eq s s1 hwf hids hnext, noOverlap_of_proj s s1 hproj hno⟩
    | error e => exact ⟨hwf, hno⟩
  | clearOp i f hf =>
    simp only [applyOp]
    cases hr : clear_backend s i f hf with
    | ok s1 =>
      obtain ⟨hnext, hsub⟩ := clear_backend_ok s i f hf s1 hr
      refine ⟨wf_of_sublist s s1 hwf hsub hnext, ?_⟩
      exact noOverlap_of_proj s s1
        (fun b hb => ⟨b, hsub.subset hb, rfl, rfl, fun x => x⟩) hno
    | error e => exact ⟨hwf, hno⟩
  | watcherOp i m a =>
    simpa only [applyOp] using watcher_update_inv s i m a hwf hno

lemma applyOp_issue (s : BackendState) (op : Op) :
    ((applyOp s op).2 = none ∧ (applyOp s op).1.next_id = s.next_id) ∨
    ((applyOp s op).2 = some s.next_id ∧
      (applyOp s op).1.next_id = s.next_id + 1) := by
  cases op with
  | startOp cfg =>
    simp only [applyOp]
    cases hr : start_backend s cfg with
    | ok r =>
      obtain ⟨hid, -, hnext, -⟩ := start_backend_ok s cfg r hr
      refine Or.inr ⟨?_, ?_⟩ <;> simp [hid, hnext]
    | error e => exact Or.inl ⟨rfl, rfl⟩
  | stopOp i hf =>
    simp only [applyOp]
    cases hr : stop_backend s i hf with
    | ok s1 => exact Or.inl ⟨rfl, (stop_backend_ok s i hf s1 hr).1⟩
    | error e => exact Or.inl ⟨rfl, rfl⟩
  | clearOp i f hf =>
    simp only [applyOp]
    cases hr : clear_backend s i f hf with
    | ok s1 => exact Or.inl ⟨rfl, (clear_backend_ok s i f hf s1 hr).1⟩
    | error e => exact Or.inl ⟨rfl, rfl⟩
  | watcherOp i m a => exact Or.inl ⟨rfl, rfl⟩

lemma run_ids_lb : ∀ (ops : List Op) (s : BackendState),
    ∀ i ∈ (run s ops).2, s.next_id ≤ i := by
  intro ops
  induction ops with
  | nil =>
    intro s i hi
    simp [run] at hi
  | cons op ops ih =>
    intro s i hi
    simp only [run] at hi
    rcases List.mem_append.mp hi with h | h
    · rcases applyOp_issue s op with ⟨hnone, -⟩ | ⟨hsome, -⟩
      · rw [hnone] at h
        simp at h
      · rw [hsome] at h
        simp at h
        omega
    · have hle := ih (applyOp s op).1 i h
      rcases applyOp_issue s op with ⟨-, heq⟩ | ⟨-, heq⟩ <;> omega

lemma run_ids_pairwise : ∀ (ops : List Op) (s : BackendState),
    List.Pairwise (fun a b => a < b) (run s ops).2 := by
  intro ops
  induction ops with
  | nil =>
    intro s
    simp [run]
  | cons op ops ih =>
    intro s
    simp only [run]
    rcases applyOp_issue s op with ⟨hnone, -⟩ | ⟨hsome, hnext⟩
    · rw [hnone]
      simpa using ih (applyOp s op).1
    · rw [hsome]
      simp only [Option.toList_some, List.singleton_append, List.pairwise_cons]
      refine ⟨?_, ih (applyOp s op).1⟩
      intro j hj
      have := run_ids_lb ops (applyOp s op).1 j hj
      omega

lemma run_inv (ops : List Op) (s : BackendState)
    (hwf : wf s) (hno : noOverlap s) :
    wf (run s ops).1 ∧ noOverlap (run s ops).1 := by
  induction ops generalizing s with
  | nil => exact ⟨hwf, hno⟩
  | cons op ops ih =>
    simp only [run]
    obtain ⟨h1, h2⟩ := applyOp_inv s op hwf hno
    exact ih (applyOp s op).1 h1 h2

lemma wf_initState : wf initState := by
  constructor
  · simp [initState]
  · constructor
    · intro i hi
      simp [initState, idsOf] at hi
    · simp [initState, idsOf]

lemma noOverlap_initState : noOverlap initState := by
  intro a ha
  simp [initState] at ha

/-- Claim C1: link ids are allocated monotonically from the durable counter
and never reused.  Over every sequence of start/stop/clear/watcher
operations from a fresh store, the ids returned by the successful creates
are pairwise strictly increasing, so an id is never reissued after its
descriptor is cleared. -/
theorem link_ids_strictly_increasing_never_reused (ops : List Op) :
    List.Pairwise (fun a b => a < b) (run initState ops).2 :=
  run_ids_pairwise ops initState

/-- Claim C2: in every state reachable from a fresh store by start, stop,
clear and watcher-update operations, no two simultaneously active
descriptors have write paths that are equal or in an ancestor/descendant
relation. -/
theorem active_write_paths_never_overlap (ops : List Op) :
    noOverlap (run initState ops).1 :=
  (run_inv ops initState wf_initState noOverlap_initState).2

/-- Claim C3: a start request whose destination is already claimed by an
active link (equal to, containing, or contained by an active claim) fails
with a conflict and leaves all state unchanged — no descriptor is created
and the next-id counter is not advanced. -/
theorem start_conflict_rejected_state_unchanged (s : BackendState)
    (cfg : LinkConfig)
    (h : ∃ l ∈ s.links, l.active = true ∧
      overlaps l.write_path cfg.write_path = true) :
    start_backend s cfg = .error .conflict ∧ run s [.startOp cfg] = (s, []) := by
  have hany : s.links.any
      (fun l => l.active && overlaps l.write_path cfg.write_path) = true := by
    rcases h with ⟨l, hl, ha, ho⟩
    exact List.any_eq_true.mpr ⟨l, hl, by simp [ha, ho]⟩
  constructor
  · simp [start_backend, hany]
  · simp [run, applyOp, start_backend, hany]

/-- Concrete check of the conflict rejection: with link #1 actively
claiming `/target/code`, starting a second link into `/target/code` is
rejected and the store, counter included, is untouched (spec scenario B). -/
theorem start_conflict_rejected_state_unchanged_witness :
    (∃ l ∈ ({ links := [mkLink 1 cfgA], next_id := 2 } : BackendState).links,
      l.active = true ∧ overlaps l.write_path cfgA.write_path = true) ∧
    start_backend { links := [mkLink 1 cfgA], next_id := 2 } cfgA
        = .error .conflict ∧
    run { links := [mkLink 1 cfgA], next_id := 2 } [.startOp cfgA]
        = ({ links := [mkLink 1 cfgA], next_id := 2 }, []) := by
  refine ⟨by decide, ?_⟩
  exact start_conflict_rejected_state_unchanged
    { links := [mkLink 1 cfgA], next_id := 2 } cfgA (by decide)

/-- Claim C7: clearing an active descriptor without force fails with a
conflict and leaves the store — and so that descriptor, still present and
active — unchanged; clearing with force removes the descriptor regardless
of its activity. -/
theorem clear_guard_force_removes (s : BackendState) (i : Int)
    (l : CircuitPythonLink) (hfind : findLink s i = some l) :
    (l.active = true →
      clear_backend s i false true = .error .conflict ∧
      run s [.clearOp i false true] = (s, [])) ∧
    (clear_backend s i true true
      = .ok { s with
          links := s.links.filter (fun a => !((a.link_id : Int) == i)) } ∧
     findLink { s with
          links := s.links.filter (fun a => !((a.link_id : Int) == i)) } i
        = none) := by
  refine ⟨?_, ?_, ?_⟩
  · intro ha
    have h1 : clear_backend s i false true = .error .conflict := by
      simp [clear_backend, hfind, ha]
    exact ⟨h1, by simp [run, applyOp, h1]⟩
  · simp [clear_backend, hfind]
  · simp only [findLink, List.find?_eq_none]
    intro a hmem
    have := (List.mem_filter.mp hmem).2
    simp at this
    simp [this]

/-- Concrete check of the clear guard: in the two-link example store,
clearing active link #1 without force fails with a conflict and changes
nothing, while clearing it with force removes it. -/
theorem clear_guard_force_removes_witness :
    findLink stateAB 1 = some (mkLink 1 cfgA) ∧
    (clear_backend stateAB 1 false true = .error .conflict ∧
      run stateAB [.clearOp 1 false true] = (stateAB, [])) ∧
    (clear_backend stateAB 1 true true
      = .ok { stateAB with
          links := stateAB.links.filter (fun a => !((a.link_id : Int) == 1)) } ∧
     findLink { stateAB with
          links := stateAB.links.filter (fun a => !((a.link_id : Int) == 1)) } 1
        = none) := by
  have h := clear_guard_force_removes stateAB 1 (mkLink 1 cfgA) (by decide)
  exact ⟨by decide, h.1 (by decide), h.2⟩

lemma jLookup_append (j1 j2 : List (String × JVal)) (k : String) (v : JVal)
    (h : jLookup j1 k = some v) : jLookup (j1 ++ j2) k = some v := by
  unfold jLookup at h ⊢
  rcases hf : j1.find? (fun p => p.fst == k) with _ | p
  · rw [hf] at h
    simp at h
  · rw [hf] at h
    simp [List.find?_append, hf, h]

/-- Claim C9: descriptor serialization round-trips losslessly — parsing the
serialized document reproduces every field exactly — and a document
carrying unknown extra fields is still read back to the same descriptor. -/
theorem descriptor_roundtrip_tolerates_unknown_fields
    (l : CircuitPythonLink) (extra : List (String × JVal)) :
    fromJson (toJson l) = some l ∧ fromJson (toJson l ++ extra) = some l := by
  constructor
  · rfl
  · have h01 : jLookup (toJson l ++ extra) "link_id" = some (.jnat l.link_id) :=
      jLookup_append _ _ _ _ rfl
    have h02 : jLookup (toJson l ++ extra) "name" = some (.jstr l.name) :=
      jLookup_append _ _ _ _ rfl
    have h03 : jLookup (toJson l ++ extra) "read_path"
        = some (.jstr l.read_path) := jLookup_append _ _ _ _ rfl
    have h04 : jLookup (toJson l ++ extra) "write_path"
        = some (.jpath l.write_path) := jLookup_append _ _ _ _ rfl
    have h05 : jLookup (toJson l ++ extra) "recursive"
        = some (.jbool l.recursive) := jLookup_append _ _ _ _ rfl
    have h06 : jLookup (toJson l ++ extra) "active"
        = some (.jbool l.active) := jLookup_append _ _ _ _ rfl
    have h07 : jLookup (toJson l ++ extra) "process_id"
        = some (.jnat l.process_id) := jLookup_append _ _ _ _ rfl
    have h08 : jLookup (toJson l ++ extra) "creation_cwd"
        = some (.jstr l.creation_cwd) := jLookup_append _ _ _ _ rfl
    have h09 : jLookup (toJson l ++ extra) "wipe_dest"
        = some (.jbool l.wipe_dest) := jLookup_append _ _ _ _ rfl
    have h10 : jLookup (toJson l ++ extra) "skip_presave"
        = some (.jbool l.skip_presave) := jLookup_append _ _ _ _ rfl
    have h11 : jLookup (toJson l ++ extra) "manifest"
        = some (.jmap l.manifest) := jLookup_append _ _ _ _ rfl
    simp [fromJson, jNat, jStr, jBool, jPath, jMap,
      h01, h02, h03, h04, h05, h06, h07, h08, h09, h10, h11]

/-- Claim C10 (and the counterexample side of C5): on a fresh store, where
no link was ever created, `clear "last"` silently succeeds as a no-op while
`stop "last"` reports that there are no links and exits nonzero. -/
theorem last_forms_asymmetric_on_empty_history :
    stopCli initState "last" false
      = ⟨initState, ["There are no links in the history"], .exited 1⟩ ∧
    clearCli initState "last" false = ⟨initState, [], .ok⟩ := by
  constructor <;> rfl

lemma natCast_beq (m n : Nat) : (((m : Int)) == ((n : Int))) = (m == n) := by
  by_cases h : m = n
  · subst h
    simp
  · have h2 : (m : Int) ≠ (n : Int) := by exact_mod_cast h
    rw [beq_eq_false_iff_ne.mpr h2, beq_eq_false_iff_ne.mpr h]

lemma setActiveFalse_eq_self (d : CircuitPythonLink) (h : d.active = false) :
    { d with active := false } = d := by
  cases d
  simp only at h
  subst h
  rfl

lemma wf_unique_id (s : BackendState) (hwf : wf s) (a b : CircuitPythonLink)
    (ha : a ∈ s.links) (hb : b ∈ s.links) (h : a.link_id = b.link_id) :
    a = b :=
  List.inj_on_of_nodup_map hwf.2.2 ha hb h

/-- Claim C4: a link selected by restart is refused and left completely
untouched when it is still active; an inactive link is restarted by
creating a new link with the same configuration under a fresh id and then
clearing the old id — never by resuming the old id, which the fresh id
never equals. -/
theorem restart_refuses_active_reissues_inactive (s : BackendState)
    (l : CircuitPythonLink) (hmem : l ∈ s.links) (hwf : wf s) :
    (l.active = true → (restartLink s l).1 = s) ∧
    (l.active = false →
      (∀ a ∈ s.links, a.active = true →
        overlaps a.write_path l.write_path = false) →
      (restartLink s l).1
        = { links := (s.links.filter
              (fun a => !((a.link_id : Int) == (l.link_id : Int)))
              ++ [mkLink s.next_id (cfgOf l)]),
            next_id := s.next_id + 1 } ∧
      (∀ a ∈ s.links, a.link_id ≠ s.next_id) ∧ l.link_id ≠ s.next_id) := by
  constructor
  · intro ha
    simp [restartLink, ha]
  · intro ha hclean
    have hfresh : ∀ a ∈ s.links, a.link_id ≠ s.next_id := by
      intro a hma
      have := hwf.2.1 a.link_id (List.mem_map.mpr ⟨a, hma, rfl⟩)
      omega
    have hlfresh : l.link_id ≠ s.next_id := hfresh l hmem
    have hany : s.links.any
        (fun a => a.active && overlaps a.write_path (cfgOf l).write_path)
          = false := by
      apply List.any_eq_false.mpr
      intro a hma
      by_cases hact : a.active
      · simp [hact, cfgOf, hclean a hma hact]
      · simp [Bool.eq_false_iff.mpr hact]
    have hstart : start_backend s (cfgOf l)
        = .ok (s.next_id,
            { links := (s.links ++ [mkLink s.next_id (cfgOf l)]),
              next_id := s.next_id + 1 }) := by
      simp [start_backend, hany]
    have hfind : (s.links ++ [mkLink s.next_id (cfgOf l)]).find?
        (fun a => ((a.link_id : Int) == (l.link_id : Int))) = some l := by
      rw [List.find?_append]
      have hsome : s.links.find?
          (fun a => ((a.link_id : Int) == (l.link_id : Int))) = some l := by
        cases hres : s.links.find?
            (fun a => ((a.link_id : Int) == (l.link_id : Int))) with
        | none =>
          exfalso
          have := List.find?_eq_none.mp hres l hmem
          simp at this
        | some a =>
          have hpa := List.find?_some hres
          have hmema := List.mem_of_find?_eq_some hres
          have hid : a.link_id = l.link_id := by
            rw [natCast_beq] at hpa
            exact eq_of_beq hpa
          rw [wf_unique_id s hwf a l hmema hmem hid]
      rw [hsome]
      rfl
    have hnewkeep : (((mkLink s.next_id (cfgOf l)).link_id : Int)
        == (l.link_id : Int)) = false := by
      have hne : (mkLink s.next_id (cfgOf l)).link_id ≠ l.link_id := by
        simp only [mkLink]
        exact fun hc => hlfresh hc.symm
      rw [natCast_beq]
      exact beq_eq_false_iff_ne.mpr hne
    have hclear : clear_backend
        { links := (s.links ++ [mkLink s.next_id (cfgOf l)]),
          next_id := s.next_id + 1 } ((l.link_id : Nat) : Int) false true
        = .ok { links := (s.links.filter
                    (fun a => !((a.link_id : Int) == (l.link_id : Int)))
                  ++ [mkLink s.next_id (cfgOf l)]),
                next_id := s.next_id + 1 } := by
      simp [clear_backend, findLink, hfind, ha, List.filter_append, hnewkeep]
    refine ⟨?_, hfresh, hlfresh⟩
    simp only [restartLink, ha, Bool.false_eq_true, if_false, hstart, hclear]

/-- Concrete check of the restart theorem on the mixed example store:
restarting active link #2 leaves the store untouched, while restarting
inactive link #1 removes id 1 and recreates the same configuration under
the fresh id 3. -/
theorem restart_refuses_active_reissues_inactive_witness :
    (restartLink stateMixed (mkLink 2 cfgB)).1 = stateMixed ∧
    (restartLink stateMixed { mkLink 1 cfgA with active := false }).1
      = { links := (stateMixed.links.filter
              (fun a => !((a.link_id : Int)
                == (({ mkLink 1 cfgA with active := false }
                      : CircuitPythonLink).link_id : Int)))
            ++ [mkLink stateMixed.next_id
                  (cfgOf { mkLink 1 cfgA with active := false })]),
          next_id := stateMixed.next_id + 1 } := by
  constructor
  · exact (restart_refuses_active_reissues_inactive stateMixed (mkLink 2 cfgB)
      (by decide) (by unfold wf; decide)).1 (by decide)
  · exact ((restart_refuses_active_reissues_inactive stateMixed
      { mkLink 1 cfgA with active := false } (by decide)
      (by unfold wf; decide)).2 (by decide) (by decide)).1

/-- Claim C8 evidence, evaluated on the two-link example store with the
invalid id argument "foo": stop, clear and restart fail explicitly with
their validation message and exit code 1, leaving the store untouched and
performing no operation; view, however, prints its complaint and then
crashes on the never-assigned local `pattern` (an UnboundLocalError)
instead of producing a validation failure. -/
theorem invalid_id_argument_outcomes :
    stopCli stateAB "foo" false
      = ⟨stateAB, ["Link ID must be the ID, \"last\", or \"all\""], .exited 1⟩ ∧
    clearCli stateAB "foo" false
      = ⟨stateAB, ["Link ID must be the ID, \"last\", or \"all\""], .exited 1⟩ ∧
    restartCli stateAB "foo"
      = ⟨stateAB, ["Please use a valid link ID, \"last\", or \"all\""],
          .exited 1⟩ ∧
    viewCli stateAB "foo" false
      = ⟨stateAB,
          ["Please use a valid link ID, \"last\", or \"all\" (default)"],
          .crash "UnboundLocalError: pattern"⟩ :=
  ⟨rfl, rfl, rfl, rfl⟩

/-- Counterexample to claim C5 as stated: on a fresh store (counter at 1,
so "last" resolves to 0), `clear "last"` does not report that there are no
links — it prints nothing and returns as a silent success. -/
theorem clear_last_empty_history_reports_nothing :
    (clearCli initState "last" false).msgs = [] ∧
    (clearCli initState "last" false).result = .ok :=
  ⟨rfl, rfl⟩

lemma links_nil_of_next_one (s : BackendState) (hwf : wf s)
    (h1 : s.next_id = 1) : s.links = [] := by
  rcases hl : s.links with _ | ⟨a, rest⟩
  · rfl
  · exfalso
    have hm : a.link_id ∈ idsOf s := by
      rw [idsOf, hl]
      exact List.mem_cons_self _ _
    have := hwf.2.1 a.link_id hm
    omega

/-- Claim C5 (amended): with argument "last", stop, clear, view and restart
all target the link whose id is the next-id counter minus one; when that
value is 0 (no link ever created), stop, view and restart report that
there are no links (stop and restart failing with exit code 1, view
exiting cleanly with code 0), while clear returns silently as a successful
no-op without reporting anything. -/
theorem last_targets_counter_minus_one (s : BackendState) (cf f ab : Bool)
    (hwf : wf s) :
    (get_next_link_id s = 1 →
      stopCli s "last" cf
        = ⟨s, ["There are no links in the history"], .exited 1⟩ ∧
      clearCli s "last" f = ⟨s, [], .ok⟩ ∧
      viewCli s "last" ab
        = ⟨s, ["No links in the history to view"], .exited 0⟩ ∧
      restartCli s "last"
        = ⟨s, ["There are no links in the history to restart"], .exited 1⟩) ∧
    (∀ n : Nat, get_next_link_id s = n + 2 →
      stopCli s "last" cf = stopTail s (((n + 1 : Nat) : Int)) cf ∧
      clearCli s "last" f = clearTail s (((n + 1 : Nat) : Int)) f ∧
      get_links_list s (.exactStr (Nat.repr (n + 1)))
        = s.links.filter (fun l => l.link_id == n + 1) ∧
      viewCli s "last" ab = viewWith s (.exactStr (Nat.repr (n + 1))) true ab ∧
      restartCli s "last" = restartWith s (.exactStr (Nat.repr (n + 1)))) := by
  constructor
  · intro h1
    rw [get_next_link_id] at h1
    have hlinks : s.links = [] := links_nil_of_next_one s hwf h1
    refine ⟨?_, ?_, ?_, ?_⟩
    · simp [stopCli, get_next_link_id, h1]
    · simp [clearCli, get_next_link_id, h1]
    · simp [viewCli, viewWith, get_links_list, get_next_link_id, h1, hlinks]
    · simp [restartCli, restartWith, get_links_list, get_next_link_id, h1,
        hlinks]
  · intro n hn
    rw [get_next_link_id] at hn
    have harith : n + 2 - 1 = n + 1 := by omega
    have hz : ((n + 1 : Nat) == 0) = false := by simp
    refine ⟨?_, ?_, ?_, ?_, ?_⟩
    · simp [stopCli, get_next_link_id, hn, harith, hz]
    · simp [clearCli, get_next_link_id, hn, harith, hz]
    · unfold get_links_list
      exact List.filter_congr (fun l _ => patMatches_exact_repr (n + 1) l)
    · simp [viewCli, get_next_link_id, hn, harith, hz]
    · simp [restartCli, get_next_link_id, hn, harith, hz]

/-- Concrete check of the "last" resolution: on a fresh store, stop reports
the empty history and view reports cleanly; on the two-link store with the
counter at 3, stop "last" behaves as a stop of id 2 and the pattern built
from "last" selects exactly link #2. -/
theorem last_targets_counter_minus_one_witness :
    stopCli initState "last" false
      = ⟨initState, ["There are no links in the history"], .exited 1⟩ ∧
    viewCli initState "last" false
      = ⟨initState, ["No links in the history to view"], .exited 0⟩ ∧
    stopCli stateAB "last" false = stopTail stateAB ((2 : Nat) : Int) false ∧
    get_links_list stateAB (.exactStr (Nat.repr 2))
      = stateAB.links.filter (fun l => l.link_id == 2) := by
  have h1 := (last_targets_counter_minus_one initState false false false
    (by unfold wf; decide)).1 (by decide)
  have h2 := (last_targets_counter_minus_one stateAB false false false
    (by unfold wf; decide)).2 1 (by decide)
  exact ⟨h1.1, h1.2.2.1, h2.1, h2.2.2.1⟩

lemma get_links_list_all (s : BackendState) : get_links_list s .all = s.links := by
  unfold get_links_list
  apply List.filter_eq_self.mpr
  intro a _
  rfl


lemma deactivate_link_id (d : CircuitPythonLink) :
    (deactivate d).link_id = d.link_id := rfl

lemma deactivate_deactivate (d : CircuitPythonLink) :
    deactivate (deactivate d) = deactivate d := rfl

lemma deactivate_of_inactive (d : CircuitPythonLink) (h : d.active = false) :
    deactivate d = d :=
  setActiveFalse_eq_self d h

lemma map_eq_self_of {α : Type} (L : List α) (f : α → α)
    (h : ∀ d ∈ L, f d = d) : L.map f = L := by
  induction L with
  | nil => rfl
  | cons a L ih =>
    simp only [List.map_cons]
    rw [h a (List.mem_cons_self a L),
      ih (fun d hd => h d (List.mem_cons.mpr (Or.inr hd)))]

lemma wf_of_links_map_id_pres (st : BackendState)
    (g : CircuitPythonLink → CircuitPythonLink)
    (hid : ∀ a, (g a).link_id = a.link_id) (hwf : wf st) :
    wf { links := st.links.map g, next_id := st.next_id } := by
  refine wf_of_ids_eq st { links := st.links.map g, next_id := st.next_id }
    hwf ?_ rfl
  show (st.links.map g).map (fun l => l.link_id) = idsOf st
  rw [List.map_map]
  have hfun : ((fun l : CircuitPythonLink => l.link_id) ∘ g)
      = (fun l : CircuitPythonLink => l.link_id) := by
    funext a
    exact hid a
  rw [hfun]
  rfl

lemma stopAllStep_false (st : BackendState) (e : CircuitPythonLink)
    (hwf : wf st) :
    (stopAllStep st false e).links
      = st.links.map (fun d =>
          if d.link_id == e.link_id then deactivate d else d) ∧
    (stopAllStep st false e).next_id = st.next_id ∧
    wf (stopAllStep st false e) := by
  have hstep : stopAllStep st false e
      = (match stop_backend st ((e.link_id : Nat) : Int) false with
          | .ok s2 => s2
          | .error _ => st) := by
    simp [stopAllStep]
  cases hfind : findLink st ((e.link_id : Nat) : Int) with
  | none =>
    have hres : stopAllStep st false e = st := by
      rw [hstep]
      simp [stop_backend, hfind]
    have hmap : st.links.map (fun d =>
        if d.link_id == e.link_id then deactivate d else d) = st.links := by
      apply map_eq_self_of
      intro d hd
      have hno := List.find?_eq_none.mp hfind d hd
      rw [Bool.not_eq_true, natCast_beq] at hno
      rw [hno]
      exact if_neg (by simp)
    rw [hres, hmap]
    exact ⟨rfl, rfl, hwf⟩
  | some a =>
    have hpa := List.find?_some hfind
    have hmema := List.mem_of_find?_eq_some hfind
    have haid : a.link_id = e.link_id := by
      rw [natCast_beq] at hpa
      exact eq_of_beq hpa
    by_cases hact : a.active = true
    · have hres : stopAllStep st false e
          = { links := setInactive st.links ((e.link_id : Nat) : Int),
              next_id := st.next_id } := by
        rw [hstep]
        simp [stop_backend, hfind, hact]
      have hmap : setInactive st.links ((e.link_id : Nat) : Int)
          = st.links.map (fun d =>
              if d.link_id == e.link_id then deactivate d else d) := by
        unfold setInactive deactivate
        apply List.map_congr_left
        intro d _
        rw [natCast_beq]
      refine ⟨by rw [hres, hmap], by rw [hres], ?_⟩
      have hid : ∀ d, ((fun d =>
          if d.link_id == e.link_id then deactivate d else d) d).link_id
            = d.link_id := by
        intro d
        show (if (d.link_id == e.link_id) = true then deactivate d
          else d).link_id = d.link_id
        by_cases h : (d.link_id == e.link_id) = true
        · rw [if_pos h, deactivate_link_id]
        · rw [if_neg h]
      rw [hres, hmap]
      exact wf_of_links_map_id_pres st _ hid hwf
    · have hres : stopAllStep st false e = st := by
        rw [hstep]
        simp [stop_backend, hfind, hact]
      have hmap : st.links.map (fun d =>
          if d.link_id == e.link_id then deactivate d else d) = st.links := by
        apply map_eq_self_of
        intro d hd
        by_cases hde : (d.link_id == e.link_id) = true
        · have hda : d = a := wf_unique_id st hwf d a hd hmema
            (by rw [haid]; exact eq_of_beq hde)
          rw [if_pos hde, hda,
            deactivate_of_inactive a (Bool.eq_false_iff.mpr hact)]
        · exact if_neg hde
      rw [hres, hmap]
      exact ⟨rfl, rfl, hwf⟩

lemma stopAll_fold (es : List CircuitPythonLink) :
    ∀ st : BackendState, wf st →
      (es.foldl (fun acc l => stopAllStep acc false l) st).links
        = st.links.map (fun d =>
            if es.any (fun e2 => d.link_id == e2.link_id)
            then deactivate d else d) ∧
      (es.foldl (fun acc l => stopAllStep acc false l) st).next_id
        = st.next_id := by
  induction es with
  | nil =>
    intro st hwf
    constructor
    · symm
      apply map_eq_self_of
      intro d _
      simp
    · rfl
  | cons e es ih =>
    intro st hwf
    simp only [List.foldl_cons]
    obtain ⟨hlinks, hnext, hwf2⟩ := stopAllStep_false st e hwf
    obtain ⟨ihl, ihn⟩ := ih (stopAllStep st false e) hwf2
    refine ⟨?_, by rw [ihn, hnext]⟩
    rw [ihl, hlinks, List.map_map]
    apply List.map_congr_left
    intro d _
    show (if es.any (fun e2 =>
          (if d.link_id == e.link_id then deactivate d else d).link_id
            == e2.link_id)
        then deactivate (if d.link_id == e.link_id then deactivate d else d)
        else (if d.link_id == e.link_id then deactivate d else d))
      = if (e :: es).any (fun e2 => d.link_id == e2.link_id)
        then deactivate d else d
    by_cases hde : (d.link_id == e.link_id) = true
    · rw [if_pos hde, deactivate_link_id, deactivate_deactivate, ite_self,
        List.any_cons, hde, Bool.true_or, if_pos rfl]
    · rw [if_neg hde, List.any_cons,
        Bool.eq_false_iff.mpr hde, Bool.false_or]

lemma filter_eq_self_of (L : List CircuitPythonLink)
    (p : CircuitPythonLink → Bool) (h : ∀ d ∈ L, p d = true) :
    L.filter p = L :=
  List.filter_eq_self.mpr h

lemma clearAllStep_state (st : BackendState) (force : Bool)
    (e : CircuitPythonLink) (hwf : wf st) :
    (clearAllStep st force e).1.links
      = st.links.filter (fun d =>
          !((d.link_id == e.link_id) && (!d.active || force))) ∧
    (clearAllStep st force e).1.next_id = st.next_id ∧
    wf (clearAllStep st force e).1 := by
  cases hfind : findLink st ((e.link_id : Nat) : Int) with
  | none =>
    have hres : (clearAllStep st force e).1 = st := by
      simp [clearAllStep, clear_backend, hfind]
    have hkeep : st.links.filter (fun d =>
        !((d.link_id == e.link_id) && (!d.active || force))) = st.links := by
      apply filter_eq_self_of
      intro d hd
      have hno := List.find?_eq_none.mp hfind d hd
      rw [Bool.not_eq_true, natCast_beq] at hno
      rw [hno]
      rfl
    rw [hres, hkeep]
    exact ⟨rfl, rfl, hwf⟩
  | some a =>
    have hpa := List.find?_some hfind
    have hmema := List.mem_of_find?_eq_some hfind
    have haid : a.link_id = e.link_id := by
      rw [natCast_beq] at hpa
      exact eq_of_beq hpa
    by_cases hc : (a.active && !force) = true
    · have hres : (clearAllStep st force e).1 = st := by
        simp [clearAllStep, clear_backend, hfind, hc]
      have hforce : force = false := by
        revert hc
        cases force <;> simp
      have hkeep : st.links.filter (fun d =>
          !((d.link_id == e.link_id) && (!d.active || force))) = st.links := by
        apply filter_eq_self_of
        intro d hd
        by_cases hde : (d.link_id == e.link_id) = true
        · have hda : d = a := wf_unique_id st hwf d a hd hmema
            (by rw [haid]; exact eq_of_beq hde)
          have hdact : d.active = true := by
            rw [hda]
            revert hc
            cases a.active <;> simp
          rw [hde, hdact, hforce]
          rfl
        · rw [Bool.eq_false_iff.mpr hde]
          rfl
      rw [hres, hkeep]
      exact ⟨rfl, rfl, hwf⟩
    · have hres : (clearAllStep st force e).1
          = { links := st.links.filter
                (fun d => !((d.link_id : Int) == ((e.link_id : Nat) : Int))),
              next_id := st.next_id } := by
        simp [clearAllStep, clear_backend, hfind, hc]
      have hkeep : st.links.filter
          (fun d => !((d.link_id : Int) == ((e.link_id : Nat) : Int)))
          = st.links.filter (fun d =>
              !((d.link_id == e.link_id) && (!d.active || force))) := by
        apply List.filter_congr
        intro d hd
        rw [natCast_beq]
        by_cases hde : (d.link_id == e.link_id) = true
        · have hda : d = a := wf_unique_id st hwf d a hd hmema
            (by rw [haid]; exact eq_of_beq hde)
          have hcond : (!d.active || force) = true := by
            rw [hda]
            revert hc
            cases a.active <;> cases force <;> simp
          rw [hde, hcond]
          rfl
        · rw [Bool.eq_false_iff.mpr hde]
          rfl
      refine ⟨by rw [hres, hkeep], by rw [hres], ?_⟩
      rw [hres]
      exact wf_of_sublist st _ hwf (List.filter_sublist _) rfl

lemma clearAll_fold (force : Bool) (es : List CircuitPythonLink) :
    ∀ (st : BackendState) (m0 : List String), wf st →
      ((es.foldl (fun acc l =>
          ((clearAllStep acc.1 force l).1,
            acc.2 ++ (clearAllStep acc.1 force l).2)) (st, m0)).1).links
        = st.links.filter (fun d =>
            !(es.any (fun e2 => d.link_id == e2.link_id)
              && (!d.active || force))) ∧
      ((es.foldl (fun acc l =>
          ((clearAllStep acc.1 force l).1,
            acc.2 ++ (clearAllStep acc.1 force l).2)) (st, m0)).1).next_id
        = st.next_id := by
  induction es with
  | nil =>
    intro st m0 hwf
    refine ⟨?_, rfl⟩
    symm
    apply filter_eq_self_of
    intro d _
    simp
  | cons e es ih =>
    intro st m0 hwf
    simp only [List.foldl_cons]
    obtain ⟨hlinks, hnext, hwf2⟩ := clearAllStep_state st force e hwf
    obtain ⟨ihl, ihn⟩ := ih (clearAllStep st force e).1
      (m0 ++ (clearAllStep st force e).2) hwf2
    refine ⟨?_, by rw [ihn, hnext]⟩
    rw [ihl, hlinks, List.filter_filter]
    apply List.filter_congr
    intro d _
    rw [List.any_cons]
    by_cases hde : (d.link_id == e.link_id) = true
    · rw [hde, Bool.true_or]
      by_cases hcond : (!d.active || force) = true
      · rw [hcond]
        by_cases hany : (es.any (fun e2 => d.link_id == e2.link_id)) = true
        · rw [hany]
          rfl
        · rw [Bool.eq_false_iff.mpr hany]
          rfl
      · rw [Bool.eq_false_iff.mpr hcond]
        by_cases hany : (es.any (fun e2 => d.link_id == e2.link_id)) = true
        · rw [hany]
          rfl
        · rw [Bool.eq_false_iff.mpr hany]
          rfl
    · rw [Bool.eq_false_iff.mpr hde, Bool.false_or]
      by_cases hcond : (!d.active || force) = true
      · rw [hcond]
        by_cases hany : (es.any (fun e2 => d.link_id == e2.link_id)) = true
        · rw [hany]
          rfl
        · rw [Bool.eq_false_iff.mpr hany]
          rfl
      · rw [Bool.eq_false_iff.mpr hcond]
        by_cases hany : (es.any (fun e2 => d.link_id == e2.link_id)) = true
        · rw [hany]
          rfl
        · rw [Bool.eq_false_iff.mpr hany]
          rfl

/-- Claim C6: the bulk "all" sweeps call the backend with
`hard_fault = false` for every target and never abort.  `stop "all"`
completes with exit code 0 and deactivates every link — targets already
inactive count as success — and `clear "all"` completes with exit code 0
having removed every link it may remove (all of them under `--force`,
exactly the inactive ones otherwise), continuing past each conflicting
active target instead of aborting the batch. -/
theorem bulk_all_sweeps_continue (s : BackendState) (force : Bool)
    (hwf : wf s) :
    (stopCli s "all" false).state.links = s.links.map deactivate ∧
    (stopCli s "all" false).result = .exited 0 ∧
    (clearCli s "all" force).state.links
      = s.links.filter (fun d => d.active && !force) ∧
    (clearCli s "all" force).result = .exited 0 := by
  have hall : get_links_list s .all = s.links := get_links_list_all s
  refine ⟨?_, ?_, ?_, ?_⟩
  · show ((get_links_list s .all).foldl
        (fun st l => stopAllStep st false l) s).links = s.links.map deactivate
    rw [hall]
    rw [(stopAll_fold s.links s hwf).1]
    apply List.map_congr_left
    intro d hd
    have hany : (s.links.any (fun e2 => d.link_id == e2.link_id)) = true :=
      List.any_eq_true.mpr ⟨d, hd, by simp⟩
    rw [hany, if_pos rfl]
  · rfl
  · show ((get_links_list s .all).foldl
        (fun acc l =>
          ((clearAllStep acc.1 force l).1,
            acc.2 ++ (clearAllStep acc.1 force l).2))
        (s, ([] : List String))).1.links
      = s.links.filter (fun d => d.active && !force)
    rw [hall]
    rw [(clearAll_fold force s.links s [] hwf).1]
    apply List.filter_congr
    intro d hd
    have hany : (s.links.any (fun e2 => d.link_id == e2.link_id)) = true :=
      List.any_eq_true.mpr ⟨d, hd, by simp⟩
    rw [hany, Bool.true_and]
    cases d.active <;> cases force <;> rfl
  · rfl

/-- Concrete check of the bulk sweeps on a store whose first link is active
and second inactive: `stop "all"` deactivates both, and `clear "all"`
without force fails on active link #1 yet continues and removes inactive
link #2, finishing with exit code 0. -/
theorem bulk_all_sweeps_continue_witness :
    (stopCli { links := [mkLink 1 cfgA,
          { mkLink 2 cfgB with active := false }], next_id := 3 }
        "all" false).state.links
      = ({ links := [mkLink 1 cfgA,
            { mkLink 2 cfgB with active := false }], next_id := 3 }
          : BackendState).links.map deactivate ∧
    (clearCli { links := [mkLink 1 cfgA,
          { mkLink 2 cfgB with active := false }], next_id := 3 }
        "all" false).state.links
      = ({ links := [mkLink 1 cfgA,
            { mkLink 2 cfgB with active := false }], next_id := 3 }
          : BackendState).links.filter (fun d => d.active && !false) ∧
    (clearCli { links := [mkLink 1 cfgA,
          { mkLink 2 cfgB with active := false }], next_id := 3 }
        "all" false).result = .exited 0 := by
  have h := bulk_all_sweeps_continue
    { links := [mkLink 1 cfgA, { mkLink 2 cfgB with active := false }],
      next_id := 3 } false (by unfold wf; decide)
  exact ⟨h.1, h.2.2.1, h.2.2.2⟩
